import Mathlib

/-
Shallow embedding of the Obsidian "vault review" plugin's snapshot ledger
(src, `VaultReviewPlugin` and `VaultReviewSettingTab`).

The ledger state is `VaultReviewSettings`: an optional `Snapshot` (a list of
`File` records plus a creation timestamp) together with global `Settings`.
The TypeScript source mutates this state in place through object references;
here every operation is a pure function from the old state to the new one,
together with the user-visible notice it emits where a claim depends on it.
`Math.random()`-driven selection is modelled by quantifying over an arbitrary
index, and the live vault file collection by a list of paths.
-/

namespace VaultReview

/-- The four-valued effective status (`FileStatus` in the source); `new` is
never stored, only derived by absence. -/
inductive FileStatus where
  | new
  | to_review
  | reviewed
  | deleted
deriving DecidableEq

/-- The storable statuses (`SnapshotFileStatus = Exclude<FileStatus, "new">`
in the source). -/
inductive SnapshotFileStatus where
  | to_review
  | reviewed
  | deleted
deriving DecidableEq

/-- Injection of a stored status into the effective status type. -/
def SnapshotFileStatus.toFileStatus : SnapshotFileStatus → FileStatus
  | .to_review => .to_review
  | .reviewed => .reviewed
  | .deleted => .deleted

/-- One tracked record (`File` in the source): a vault path and its stored
review status. -/
structure File where
  path : String
  status : SnapshotFileStatus
deriving DecidableEq

/-- `Snapshot` from the source: the tracked records and the creation time
(`Date` modelled as a numeric timestamp). -/
structure Snapshot where
  files : List File
  createdAt : Nat
deriving DecidableEq

/-- Global plugin settings (`Settings` in the source). -/
structure Settings where
  showStatusBar : Bool
deriving DecidableEq

/-- The persisted ledger (`VaultReviewSettings` in the source): at most one
snapshot plus settings. -/
structure VaultReviewSettings where
  snapshot : Option Snapshot
  settings : Settings
deriving DecidableEq

/-- `toFile` from the source: build a record for a path with a given status. -/
def toFile (path : String) (status : SnapshotFileStatus) : File :=
  { path := path, status := status }

/-- User-visible notices emitted by the operations (`new Notice(...)` calls
in the source). -/
inductive Notice where
  | snapshotNotCreated
  | allFilesReviewed
  | cannotFindFile (path : String)
  | addedAndMarkedReviewed
  | addedAndMarkedNotReviewed
deriving DecidableEq

/-- The record list of the current snapshot, or `[]` when no snapshot exists
(the `this.settings.snapshot?.files` access pattern). -/
def snapshotFiles (s : VaultReviewSettings) : List File :=
  (s.snapshot.map Snapshot.files).getD []

/-- `getSnapshotFile` from the source:
`this.settings.snapshot?.files.find((f) => f.path === path)`. -/
def getSnapshotFile (s : VaultReviewSettings) (path : String) : Option File :=
  (snapshotFiles s).find? (fun f => f.path == path)

/-- `getActiveFileStatus` from the source, given the active file's path:
`this.getSnapshotFile(path)?.status ?? "new"`. -/
def getActiveFileStatus (s : VaultReviewSettings) (path : String) : FileStatus :=
  match getSnapshotFile s path with
  | some f => f.status.toFileStatus
  | none => FileStatus.new

/-- `getToReviewFiles` from the source:
`this.settings.snapshot?.files.filter((file) => file.status === "to_review") ?? []`. -/
def getToReviewFiles (s : VaultReviewSettings) : List File :=
  (snapshotFiles s).filter (fun f => f.status == SnapshotFileStatus.to_review)

/-- In-place mutation of the first record matching `path` (the
`find`-then-assign pattern of the source: only the record returned by
`Array.prototype.find` is mutated). -/
def updateFirst (files : List File) (path : String) (g : File → File) : List File :=
  match files with
  | [] => []
  | f :: fs => if f.path == path then g f :: fs else f :: updateFirst fs path g

/-- Replace the snapshot's record list, a no-op when no snapshot exists
(the `this.settings.snapshot?.files` mutation pattern). -/
def withFiles (s : VaultReviewSettings) (files : List File) : VaultReviewSettings :=
  match s.snapshot with
  | none => s
  | some snap => { s with snapshot := some { snap with files := files } }

/-- `this.settings.snapshot?.files.push(f)` from the source: append a record,
a no-op when no snapshot exists (optional chaining). -/
def pushFile (s : VaultReviewSettings) (f : File) : VaultReviewSettings :=
  withFiles s (snapshotFiles s ++ [f])

/-- `completeReview` from the source, for a target path (the `openNext`
variant additionally opens a random file, which does not change the branch
modelled here). If the path has no record, a notice is shown and a
`reviewed` record is pushed (no-op without a snapshot); otherwise the found
record's status is set to `reviewed`. -/
def completeReview (s : VaultReviewSettings) (path : String) :
    VaultReviewSettings × Option Notice :=
  match getSnapshotFile s path with
  | none =>
      (pushFile s (toFile path SnapshotFileStatus.reviewed),
        some Notice.addedAndMarkedReviewed)
  | some _ =>
      (withFiles s
        (updateFirst (snapshotFiles s) path
          (fun f => { f with status := SnapshotFileStatus.reviewed })), none)

/-- `unreviewFile` from the source, symmetric to `completeReview` with target
status `to_review`. -/
def unreviewFile (s : VaultReviewSettings) (path : String) :
    VaultReviewSettings × Option Notice :=
  match getSnapshotFile s path with
  | none =>
      (pushFile s (toFile path SnapshotFileStatus.to_review),
        some Notice.addedAndMarkedNotReviewed)
  | some _ =>
      (withFiles s
        (updateFirst (snapshotFiles s) path
          (fun f => { f with status := SnapshotFileStatus.to_review })), none)

/-- `handleFileRename` from the source. `isFolder` models the
`file instanceof TFolder` guard; `newPath` is the renamed file's current
path. If a record exists at `oldPath`, its `path` field is rewritten to
`newPath` in place (no collision check); otherwise nothing happens. -/
def handleFileRename (s : VaultReviewSettings) (isFolder : Bool)
    (newPath oldPath : String) : VaultReviewSettings :=
  if isFolder then s
  else
    match getSnapshotFile s oldPath with
    | none => s
    | some _ =>
        withFiles s
          (updateFirst (snapshotFiles s) oldPath (fun f => { f with path := newPath }))

/-- `handleFileDelete` from the source. No-op for folders or when no snapshot
exists; otherwise the record at `path`, if any, gets status `deleted`. -/
def handleFileDelete (s : VaultReviewSettings) (isFolder : Bool)
    (path : String) : VaultReviewSettings :=
  if isFolder || s.snapshot.isNone then s
  else
    match getSnapshotFile s path with
    | none => s
    | some _ =>
        withFiles s
          (updateFirst (snapshotFiles s) path
            (fun f => { f with status := SnapshotFileStatus.deleted }))

/-- Outcome of `openRandomFile`: no snapshot, nothing left to review, or a
picked record. -/
inductive PickResult where
  | noSnapshot
  | nothingToReview
  | picked (f : File)
deriving DecidableEq

/-- `files[Math.floor(Math.random() * files.length)]` from the source,
with the random draw modelled by an arbitrary natural number `k` reduced
modulo the list length; `none` exactly when the list is empty. -/
def pickIndex (files : List File) (k : Nat) : Option File :=
  match files with
  | [] => none
  | f :: fs => some ((f :: fs).get ⟨k % (fs.length + 1), Nat.mod_lt _ (Nat.succ_pos _)⟩)

/-- `openRandomFile` from the source, up to the point where a record is
chosen (opening the record is `focusFile`): notice when no snapshot exists,
notice "All files are reviewed" when no record has status `to_review`,
otherwise a random `to_review` record. -/
def openRandomFile (s : VaultReviewSettings) (k : Nat) : PickResult :=
  match s.snapshot with
  | none => PickResult.noSnapshot
  | some _ =>
      match pickIndex (getToReviewFiles s) k with
      | none => PickResult.nothingToReview
      | some f => PickResult.picked f

/-- Result of attempting to open a picked record's target file. -/
inductive FocusResult where
  | opened (path : String)
  | targetMissing (path : String)
deriving DecidableEq

/-- The full effect of `focusFile`: the ledger afterwards, the signal to the
caller, and whether `saveSettings` was invoked. -/
structure FocusOutcome where
  state : VaultReviewSettings
  result : FocusResult
  persisted : Bool
deriving DecidableEq

/-- `focusFile` from the source. `live` models the vault's live file
collection (`getFileByPath` succeeds exactly on its members). When the
target resolves the file is opened and the ledger untouched; otherwise a
notice is shown and, if a snapshot exists, every record with the stale path
is filtered out and the ledger saved. -/
def focusFile (live : List String) (s : VaultReviewSettings) (f : File) :
    FocusOutcome :=
  if f.path ∈ live then
    { state := s, result := FocusResult.opened f.path, persisted := false }
  else
    match s.snapshot with
    | none =>
        { state := s, result := FocusResult.targetMissing f.path, persisted := false }
    | some snap =>
        let snap' : Snapshot :=
          { snap with files := snap.files.filter (fun fp => fp.path != f.path) }
        { state := { s with snapshot := some snap' },
          result := FocusResult.targetMissing f.path,
          persisted := true }

/-- The "Add all new files to snapshot" button of `VaultReviewSettingTab`:
every vault markdown path with no record in the snapshot is appended as a
`to_review` record (a no-op without a snapshot, where the button is not
shown). -/
def addNewFiles (s : VaultReviewSettings) (vaultPaths : List String) :
    VaultReviewSettings :=
  let newFiles :=
    (vaultPaths.filter
      (fun p => !(snapshotFiles s).any (fun f => f.path == p))).map
      (fun p => toFile p SnapshotFileStatus.to_review)
  withFiles s (snapshotFiles s ++ newFiles)

/-- The "Create snapshot" button of `VaultReviewSettingTab`: only available
when no snapshot exists (otherwise the settings tab shows the delete and
add-new-files buttons instead, modelled as a failing result `false`);
builds one `to_review` record per vault markdown path and stamps the
current time. -/
def createSnapshot (s : VaultReviewSettings) (vaultPaths : List String)
    (now : Nat) : VaultReviewSettings × Bool :=
  match s.snapshot with
  | some _ => (s, false)
  | none =>
      let snap : Snapshot :=
        { files := vaultPaths.map (fun p => toFile p SnapshotFileStatus.to_review),
          createdAt := now }
      ({ s with snapshot := some snap }, true)

/-- Paths of a record list, used to state the uniqueness invariant I1. -/
def paths (files : List File) : List String :=
  files.map File.path

/-- Sample ledger: two tracked records, `a.md` not yet reviewed and `b.md`
reviewed. -/
def sAB : VaultReviewSettings :=
  { snapshot := some
      { files := [toFile "a.md" SnapshotFileStatus.to_review,
                  toFile "b.md" SnapshotFileStatus.reviewed],
        createdAt := 0 },
    settings := { showStatusBar := true } }

/-- Sample ledger with no snapshot. -/
def sNone : VaultReviewSettings :=
  { snapshot := none, settings := { showStatusBar := true } }

/-- Sample ledger whose only record is already reviewed, so nothing is left
to review. -/
def sRev : VaultReviewSettings :=
  { snapshot := some
      { files := [toFile "a.md" SnapshotFileStatus.reviewed], createdAt := 0 },
    settings := { showStatusBar := true } }

end VaultReview

namespace VaultReview

/- Helper lemmas about the embedded operations. -/

theorem snapshotFiles_some {s : VaultReviewSettings} {snap : Snapshot}
    (h : s.snapshot = some snap) : snapshotFiles s = snap.files := by
  simp [snapshotFiles, h]

theorem snapshotFiles_none {s : VaultReviewSettings}
    (h : s.snapshot = none) : snapshotFiles s = [] := by
  simp [snapshotFiles, h]

theorem withFiles_some {s : VaultReviewSettings} {snap : Snapshot}
    (h : s.snapshot = some snap) (F : List File) :
    withFiles s F = { s with snapshot := some { snap with files := F } } := by
  simp [withFiles, h]

theorem updateFirst_length (files : List File) (p : String) (g : File → File) :
    (updateFirst files p g).length = files.length := by
  induction files with
  | nil => rfl
  | cons f fs ih =>
    simp only [updateFirst]
    split <;> simp [ih]

theorem updateFirst_decomp {files : List File} {p : String} {r : File}
    (g : File → File)
    (h : files.find? (fun f => f.path == p) = some r) :
    ∃ l1 l2, files = l1 ++ r :: l2 ∧ (∀ x ∈ l1, x.path ≠ p) ∧ r.path = p ∧
      updateFirst files p g = l1 ++ g r :: l2 := by
  induction files with
  | nil => simp at h
  | cons f fs ih =>
    by_cases hf : (f.path == p) = true
    · rw [List.find?_cons, hf] at h
      obtain rfl : f = r := by injection h
      refine ⟨[], fs, rfl, by simp, by simpa using hf, ?_⟩
      simp [updateFirst, hf]
    · rw [List.find?_cons, Bool.of_not_eq_true hf] at h
      obtain ⟨l1, l2, hfs, hl1, hr, hup⟩ := ih h
      refine ⟨f :: l1, l2, by simp [hfs], ?_, hr, ?_⟩
      · intro x hx
        rcases List.mem_cons.mp hx with rfl | hx
        · simpa using hf
        · exact hl1 x hx
      · simp [updateFirst, hf, hup]

theorem updateFirst_append_left {l1 : List File} {p : String}
    (l2 : List File) (g : File → File)
    (h : ∀ x ∈ l1, x.path ≠ p) :
    updateFirst (l1 ++ l2) p g = l1 ++ updateFirst l2 p g := by
  induction l1 with
  | nil => rfl
  | cons f fs ih =>
    have hf : ¬(f.path == p) = true := by simpa using h f (List.mem_cons_self f fs)
    simp only [List.cons_append, updateFirst, if_neg hf, List.append_eq]
    rw [ih (fun x hx => h x (List.mem_cons_of_mem f hx))]

theorem find?_of_mem_nodup {files : List File} {p : String} {r : File}
    (hnd : (paths files).Nodup) (hr : r ∈ files) (hp : r.path = p) :
    files.find? (fun f => f.path == p) = some r := by
  induction files with
  | nil => cases hr
  | cons f fs ih =>
    simp only [paths, List.map_cons, List.nodup_cons] at hnd
    rcases List.mem_cons.mp hr with rfl | hr
    · simp [List.find?_cons, hp]
    · have hf : ¬(f.path == p) = true := by
        simp only [beq_iff_eq]
        intro hfp
        exact hnd.1 (hfp ▸ hp ▸ List.mem_map_of_mem File.path hr)
      rw [List.find?_cons, Bool.of_not_eq_true hf]
      exact ih hnd.2 hr

theorem pickIndex_mem {files : List File} {k : Nat} {f : File}
    (h : pickIndex files k = some f) : f ∈ files := by
  cases files with
  | nil => simp [pickIndex] at h
  | cons a as =>
    simp only [pickIndex, Option.some.injEq] at h
    exact h ▸ List.get_mem _ _ _

end VaultReview

namespace VaultReview

/- Claim theorems. -/

/-- Claim C1. The spec (P1, I1) asserts that no sequence of ledger
operations ever yields two records with equal path, and in particular that
a rename notification onto an occupied path must not produce two records at
the new path. The code violates this: `handleFileRename` rewrites the old
record's path field with no collision check, so renaming `a.md` to `b.md`
while a record for `b.md` exists turns a duplicate-free ledger into one with
two records at path `b.md`. -/
theorem C1_rename_collision_violates_uniqueness :
    (paths (snapshotFiles sAB)).Nodup ∧
    paths (snapshotFiles (handleFileRename sAB false "b.md" "a.md")) =
      ["b.md", "b.md"] ∧
    ¬(paths (snapshotFiles (handleFileRename sAB false "b.md" "a.md"))).Nodup := by
  decide

/-- Claim C10. When no snapshot exists, `completeReview` and `unreviewFile`
leave the ledger unchanged: the lookup misses, the implicit-creation branch
shows its notice, but the optional-chained push onto the absent snapshot is
a no-op, so the snapshot stays absent and no record is created. -/
theorem C10_no_snapshot_review_unreview_frame (s : VaultReviewSettings)
    (p : String) (h : s.snapshot = none) :
    (completeReview s p).1 = s ∧
    (completeReview s p).2 = some Notice.addedAndMarkedReviewed ∧
    (unreviewFile s p).1 = s ∧
    (unreviewFile s p).2 = some Notice.addedAndMarkedNotReviewed := by
  have hf : getSnapshotFile s p = none := by
    simp [getSnapshotFile, snapshotFiles_none h]
  simp [completeReview, unreviewFile, hf, pushFile, withFiles, h]

/-- Witness for C10 at the concrete snapshotless ledger `sNone`. -/
theorem C10_no_snapshot_review_unreview_frame_witness :
    sNone.snapshot = none ∧
    ((completeReview sNone "a.md").1 = sNone ∧
     (completeReview sNone "a.md").2 = some Notice.addedAndMarkedReviewed ∧
     (unreviewFile sNone "a.md").1 = sNone ∧
     (unreviewFile sNone "a.md").2 = some Notice.addedAndMarkedNotReviewed) :=
  ⟨rfl, C10_no_snapshot_review_unreview_frame sNone "a.md" rfl⟩

/-- Claim C9. `createSnapshot` fails (and leaves the ledger untouched) when
a snapshot already exists — in the source the create button is only offered
when no snapshot exists — and otherwise installs a snapshot with exactly one
`to_review` record per input path, stamped with the current time. -/
theorem C9_createSnapshot_spec (s : VaultReviewSettings)
    (vaultPaths : List String) (now : Nat) :
    (s.snapshot ≠ none → createSnapshot s vaultPaths now = (s, false)) ∧
    (s.snapshot = none →
      (createSnapshot s vaultPaths now).2 = true ∧
      ∃ snap, (createSnapshot s vaultPaths now).1.snapshot = some snap ∧
        snap.createdAt = now ∧
        paths snap.files = vaultPaths ∧
        (∀ r ∈ snap.files, r.status = SnapshotFileStatus.to_review) ∧
        (createSnapshot s vaultPaths now).1.settings = s.settings) := by
  constructor
  · intro h
    match hs : s.snapshot with
    | none => exact absurd hs h
    | some snap => simp [createSnapshot, hs]
  · intro h
    refine ⟨by simp [createSnapshot, h],
      { files := vaultPaths.map (fun p => toFile p SnapshotFileStatus.to_review),
        createdAt := now },
      by simp [createSnapshot, h], rfl, ?_, ?_, by simp [createSnapshot, h]⟩
    · simp [paths, toFile, List.map_map]
      exact List.map_id vaultPaths
    · intro r hr
      obtain ⟨p, _, rfl⟩ := List.mem_map.mp hr
      rfl

/-- Witness for C9: creation fails on `sAB` (snapshot present) and succeeds
on `sNone`. -/
theorem C9_createSnapshot_spec_witness :
    sAB.snapshot ≠ none ∧
    createSnapshot sAB ["x.md"] 7 = (sAB, false) ∧
    sNone.snapshot = none ∧
    ((createSnapshot sNone ["x.md"] 7).2 = true ∧
     ∃ snap, (createSnapshot sNone ["x.md"] 7).1.snapshot = some snap ∧
       snap.createdAt = 7 ∧
       paths snap.files = ["x.md"] ∧
       (∀ r ∈ snap.files, r.status = SnapshotFileStatus.to_review) ∧
       (createSnapshot sNone ["x.md"] 7).1.settings = sNone.settings) :=
  ⟨by decide, (C9_createSnapshot_spec sAB ["x.md"] 7).1 (by decide), rfl,
   (C9_createSnapshot_spec sNone ["x.md"] 7).2 rfl⟩

/-- Claim C8. Opening a picked record: when the target path resolves in the
live file collection the whole outcome leaves the ledger unchanged and
nothing is persisted; when it does not resolve and a snapshot exists, every
record with that path is evicted, all other records are kept, the caller is
signalled "target missing", and the ledger is persisted (without a snapshot
only the signal is emitted). -/
theorem C8_focus_missing_evicts (live : List String) (s : VaultReviewSettings)
    (f : File) :
    (f.path ∈ live → focusFile live s f =
      { state := s, result := FocusResult.opened f.path, persisted := false }) ∧
    (f.path ∉ live → s.snapshot = none → focusFile live s f =
      { state := s, result := FocusResult.targetMissing f.path, persisted := false }) ∧
    (∀ snap, f.path ∉ live → s.snapshot = some snap →
      (focusFile live s f).result = FocusResult.targetMissing f.path ∧
      (focusFile live s f).persisted = true ∧
      ∃ snap', (focusFile live s f).state = { s with snapshot := some snap' } ∧
        snap'.createdAt = snap.createdAt ∧
        (∀ r ∈ snap'.files, r ∈ snap.files ∧ r.path ≠ f.path) ∧
        (∀ r ∈ snap.files, r.path ≠ f.path → r ∈ snap'.files)) := by
  refine ⟨fun h => by simp [focusFile, h], fun h hn => by simp [focusFile, h, hn], ?_⟩
  intro snap h hs
  refine ⟨by simp [focusFile, h, hs], by simp [focusFile, h, hs],
    { snap with files := snap.files.filter (fun fp => fp.path != f.path) },
    by simp [focusFile, h, hs], rfl, ?_, ?_⟩
  · intro r hr
    rw [List.mem_filter] at hr
    exact ⟨hr.1, by simpa [bne_iff_ne] using hr.2⟩
  · intro r hr hne
    rw [List.mem_filter]
    exact ⟨hr, by simpa [bne_iff_ne] using hne⟩

/-- Witness for C8: opening `a.md` when it is live leaves `sAB` unchanged;
opening it when only `b.md` is live evicts the `a.md` record. -/
theorem C8_focus_missing_evicts_witness :
    ("a.md" : String) ∈ ["a.md", "b.md"] ∧
    focusFile ["a.md", "b.md"] sAB (toFile "a.md" SnapshotFileStatus.to_review) =
      { state := sAB, result := FocusResult.opened "a.md", persisted := false } ∧
    ("a.md" : String) ∉ ["b.md"] ∧
    ((focusFile ["b.md"] sAB (toFile "a.md" SnapshotFileStatus.to_review)).result =
      FocusResult.targetMissing "a.md" ∧
     (focusFile ["b.md"] sAB (toFile "a.md" SnapshotFileStatus.to_review)).persisted = true) :=
  ⟨by decide,
   (C8_focus_missing_evicts ["a.md", "b.md"] sAB
     (toFile "a.md" SnapshotFileStatus.to_review)).1 (by decide),
   by decide,
   ⟨((C8_focus_missing_evicts ["b.md"] sAB
       (toFile "a.md" SnapshotFileStatus.to_review)).2.2
       { files := [toFile "a.md" SnapshotFileStatus.to_review,
                   toFile "b.md" SnapshotFileStatus.reviewed], createdAt := 0 }
       (by decide) rfl).1,
    ((C8_focus_missing_evicts ["b.md"] sAB
       (toFile "a.md" SnapshotFileStatus.to_review)).2.2
       { files := [toFile "a.md" SnapshotFileStatus.to_review,
                   toFile "b.md" SnapshotFileStatus.reviewed], createdAt := 0 }
       (by decide) rfl).2.1⟩⟩

/-- Claim C7. The status resolver returns the stored status of the record
whose path exactly equals the queried path when one exists, and `new`
otherwise; it is a pure function of the ledger (it returns a status and no
modified state, so resolution never changes the ledger). -/
theorem C7_resolver_exact_match_or_new (s : VaultReviewSettings)
    (snap : Snapshot) (p : String)
    (hs : s.snapshot = some snap)
    (hnd : (paths snap.files).Nodup) :
    (∀ r ∈ snap.files, r.path = p →
      getActiveFileStatus s p = r.status.toFileStatus) ∧
    ((∀ r ∈ snap.files, r.path ≠ p) → getActiveFileStatus s p = FileStatus.new) := by
  constructor
  · intro r hr hp
    have hfind : getSnapshotFile s p = some r := by
      rw [getSnapshotFile, snapshotFiles_some hs]
      exact find?_of_mem_nodup hnd hr hp
    simp [getActiveFileStatus, hfind]
  · intro h
    have hfind : getSnapshotFile s p = none := by
      rw [getSnapshotFile, snapshotFiles_some hs]
      exact List.find?_eq_none.mpr (fun x hx => by simpa using h x hx)
    simp [getActiveFileStatus, hfind]

/-- Witness for C7 on `sAB`: `b.md` resolves to its stored status
`reviewed`, and the untracked `zz.md` resolves to `new`. -/
theorem C7_resolver_exact_match_or_new_witness :
    getActiveFileStatus sAB "b.md" = FileStatus.reviewed ∧
    getActiveFileStatus sAB "zz.md" = FileStatus.new :=
  ⟨(C7_resolver_exact_match_or_new sAB
      { files := [toFile "a.md" SnapshotFileStatus.to_review,
                  toFile "b.md" SnapshotFileStatus.reviewed], createdAt := 0 }
      "b.md" rfl (by decide)).1
      (toFile "b.md" SnapshotFileStatus.reviewed) (by decide) rfl,
   (C7_resolver_exact_match_or_new sAB
      { files := [toFile "a.md" SnapshotFileStatus.to_review,
                  toFile "b.md" SnapshotFileStatus.reviewed], createdAt := 0 }
      "zz.md" rfl (by decide)).2 (by decide)⟩

/-- Claim C6. `openRandomFile` only ever picks a record whose status is
`to_review` at call time (the pick is drawn from the `to_review` filter of
the snapshot's records), and when no record has that status it signals
emptiness instead of returning a record. -/
theorem C6_pick_only_to_review_or_empty (s : VaultReviewSettings) (k : Nat) :
    (∀ f, openRandomFile s k = PickResult.picked f →
      f.status = SnapshotFileStatus.to_review ∧
      ∃ snap, s.snapshot = some snap ∧ f ∈ snap.files) ∧
    (∀ snap, s.snapshot = some snap → getToReviewFiles s = [] →
      openRandomFile s k = PickResult.nothingToReview) := by
  constructor
  · intro f hf
    match hs : s.snapshot with
    | none => simp [openRandomFile, hs] at hf
    | some snap =>
      simp only [openRandomFile, hs] at hf
      cases hp : pickIndex (getToReviewFiles s) k with
      | none => rw [hp] at hf; cases hf
      | some g =>
        rw [hp] at hf
        obtain rfl : g = f := by injection hf
        have hmem := pickIndex_mem hp
        rw [getToReviewFiles, snapshotFiles_some hs, List.mem_filter] at hmem
        exact ⟨by simpa using hmem.2, snap, rfl, hmem.1⟩
  · intro snap hs hempty
    simp [openRandomFile, hs, hempty, pickIndex]

/-- Witness for C6: on `sAB` the pick at any draw is the sole `to_review`
record `a.md`; on `sRev` (everything reviewed) emptiness is signalled. -/
theorem C6_pick_only_to_review_or_empty_witness :
    ((toFile "a.md" SnapshotFileStatus.to_review).status =
       SnapshotFileStatus.to_review ∧
     ∃ snap, sAB.snapshot = some snap ∧
       toFile "a.md" SnapshotFileStatus.to_review ∈ snap.files) ∧
    openRandomFile sRev 3 = PickResult.nothingToReview :=
  ⟨(C6_pick_only_to_review_or_empty sAB 5).1
     (toFile "a.md" SnapshotFileStatus.to_review) (by decide),
   (C6_pick_only_to_review_or_empty sRev 3).2
     { files := [toFile "a.md" SnapshotFileStatus.reviewed], createdAt := 0 }
     rfl (by decide)⟩

end VaultReview

namespace VaultReview

/- Further helper lemmas. -/

theorem withFiles_self {s : VaultReviewSettings} {snap : Snapshot}
    (h : s.snapshot = some snap) : withFiles s snap.files = s := by
  obtain ⟨sn, st⟩ := s
  obtain rfl : sn = some snap := h
  rfl

theorem addNewFiles_eq (s : VaultReviewSettings) (S : List String) :
    addNewFiles s S = withFiles s (snapshotFiles s ++
      (S.filter (fun p => !(snapshotFiles s).any (fun f => f.path == p))).map
        (fun p => toFile p SnapshotFileStatus.to_review)) := rfl

/-- Claim C3. Delete reconciliation: without a snapshot the ledger is
unchanged; if a record exists at the deleted path, its status becomes
`deleted` while the record stays in the snapshot (the record count is
preserved, the path still resolves, and lookups at every other path are
unaffected); if no record exists at the path the ledger is unchanged. -/
theorem C3_delete_marks_without_purging (s : VaultReviewSettings) (p : String) :
    (s.snapshot = none → handleFileDelete s false p = s) ∧
    (getSnapshotFile s p = none → handleFileDelete s false p = s) ∧
    (∀ r, getSnapshotFile s p = some r →
      ∃ snap snap', s.snapshot = some snap ∧
        (handleFileDelete s false p).snapshot = some snap' ∧
        (handleFileDelete s false p).settings = s.settings ∧
        snap'.files.length = snap.files.length ∧
        toFile p SnapshotFileStatus.deleted ∈ snap'.files ∧
        getSnapshotFile (handleFileDelete s false p) p =
          some (toFile p SnapshotFileStatus.deleted) ∧
        (∀ q, q ≠ p → getSnapshotFile (handleFileDelete s false p) q =
          getSnapshotFile s q)) := by
  refine ⟨fun h => by simp [handleFileDelete, h], ?_, ?_⟩
  · intro h
    match hs : s.snapshot with
    | none => simp [handleFileDelete, hs]
    | some snap => simp [handleFileDelete, hs, h]
  · intro r hr
    match hs : s.snapshot with
    | none =>
      rw [getSnapshotFile, snapshotFiles_none hs] at hr
      simp at hr
    | some snap =>
      have hfind : snap.files.find? (fun f => f.path == p) = some r := by
        rw [getSnapshotFile, snapshotFiles_some hs] at hr
        exact hr
      obtain ⟨l1, l2, hdec, hl1, hrp, hup⟩ :=
        updateFirst_decomp (fun f => { f with status := SnapshotFileStatus.deleted }) hfind
      have hgr : ({ r with status := SnapshotFileStatus.deleted } : File) =
          toFile p SnapshotFileStatus.deleted := by
        cases r
        simp only [toFile] at hrp ⊢
        simp_all
      have hdel : handleFileDelete s false p = { s with snapshot := some { snap with files := l1 ++ toFile p SnapshotFileStatus.deleted :: l2 } } := by
        have hstep : handleFileDelete s false p =
            withFiles s (updateFirst (snapshotFiles s) p
              (fun f => { f with status := SnapshotFileStatus.deleted })) := by
          simp [handleFileDelete, hs, hr]
        rw [hstep, snapshotFiles_some hs, hup, hgr, withFiles_some hs]
      have hl1none : l1.find? (fun f => f.path == p) = none :=
        List.find?_eq_none.mpr (fun x hx => by simpa using hl1 x hx)
      refine ⟨snap, { snap with files := l1 ++ toFile p SnapshotFileStatus.deleted :: l2 }, rfl, by rw [hdel], by rw [hdel], ?_, ?_, ?_, ?_⟩
      · simp [hdec]
      · simp
      · rw [hdel]
        simp only [getSnapshotFile, snapshotFiles]
        rw [Option.map_some', Option.getD_some, List.find?_append, hl1none]
        simp [List.find?_cons, toFile]
      · intro q hq
        rw [hdel]
        simp only [getSnapshotFile, snapshotFiles]
        rw [Option.map_some', Option.getD_some, List.find?_append]
        rw [hs, Option.map_some', Option.getD_some, hdec, List.find?_append]
        have h1 : ((toFile p SnapshotFileStatus.deleted).path == q) = false := by
          simp [toFile]
          exact fun hc => hq hc.symm
        have h2 : (r.path == q) = false := by
          simp [hrp]
          exact fun hc => hq hc.symm
        rw [List.find?_cons, h1, List.find?_cons, h2]

/-- Witness for C3 on `sAB`: deleting `a.md` marks it `deleted` in place,
and deleting the untracked `zz.md` changes nothing. -/
theorem C3_delete_marks_without_purging_witness :
    (getSnapshotFile sAB "zz.md" = none → handleFileDelete sAB false "zz.md" = sAB) ∧
    (∃ snap snap', sAB.snapshot = some snap ∧
      (handleFileDelete sAB false "a.md").snapshot = some snap' ∧
      (handleFileDelete sAB false "a.md").settings = sAB.settings ∧
      snap'.files.length = snap.files.length ∧
      toFile "a.md" SnapshotFileStatus.deleted ∈ snap'.files ∧
      getSnapshotFile (handleFileDelete sAB false "a.md") "a.md" =
        some (toFile "a.md" SnapshotFileStatus.deleted) ∧
      (∀ q, q ≠ "a.md" → getSnapshotFile (handleFileDelete sAB false "a.md") q =
        getSnapshotFile sAB q)) :=
  ⟨(C3_delete_marks_without_purging sAB "zz.md").2.1,
   (C3_delete_marks_without_purging sAB "a.md").2.2
     (toFile "a.md" SnapshotFileStatus.to_review) (by decide)⟩

/-- Claim C4. With a snapshot present, reviewing a path twice in a row
yields the same ledger as reviewing it once: the second call finds the
record already `reviewed`, and setting its status to `reviewed` again
changes nothing. -/
theorem C4_review_idempotent (s : VaultReviewSettings) (p : String)
    (h : s.snapshot.isSome) :
    (completeReview (completeReview s p).1 p).1 = (completeReview s p).1 := by
  obtain ⟨snap, hs⟩ := Option.isSome_iff_exists.mp h
  cases hf : snap.files.find? (fun f => f.path == p) with
  | none =>
    have hg : getSnapshotFile s p = none := by
      rw [getSnapshotFile, snapshotFiles_some hs, hf]
    have hnomatch : ∀ x ∈ snap.files, x.path ≠ p :=
      fun x hx => by simpa using List.find?_eq_none.mp hf x hx
    have h1 : (completeReview s p).1 = { s with snapshot := some { snap with files := snap.files ++ [toFile p SnapshotFileStatus.reviewed] } } := by
      simp only [completeReview, hg, pushFile, snapshotFiles_some hs, withFiles_some hs]
    have hs1 : (completeReview s p).1.snapshot = some { snap with files := snap.files ++ [toFile p SnapshotFileStatus.reviewed] } := by
      rw [h1]
    have hg1 : getSnapshotFile (completeReview s p).1 p =
        some (toFile p SnapshotFileStatus.reviewed) := by
      rw [h1]
      simp only [getSnapshotFile, snapshotFiles]
      rw [Option.map_some', Option.getD_some, List.find?_append, hf]
      simp [List.find?_cons, toFile]
    have hsf1 : snapshotFiles (completeReview s p).1 =
        snap.files ++ [toFile p SnapshotFileStatus.reviewed] := by
      rw [h1]
      simp [snapshotFiles]
    rw [completeReview, hg1]
    rw [hsf1, updateFirst_append_left _ _ hnomatch]
    have hone : updateFirst [toFile p SnapshotFileStatus.reviewed] p
        (fun f => { f with status := SnapshotFileStatus.reviewed }) =
        [toFile p SnapshotFileStatus.reviewed] := by
      simp [updateFirst, toFile]
    rw [hone]
    exact withFiles_self hs1
  | some r =>
    have hg : getSnapshotFile s p = some r := by
      rw [getSnapshotFile, snapshotFiles_some hs, hf]
    obtain ⟨l1, l2, hdec, hl1, hrp, hup⟩ :=
      updateFirst_decomp (fun f => { f with status := SnapshotFileStatus.reviewed }) hf
    have hl1none : l1.find? (fun f => f.path == p) = none :=
      List.find?_eq_none.mpr (fun x hx => by simpa using hl1 x hx)
    have h1 : (completeReview s p).1 = { s with snapshot := some { snap with files := l1 ++ { r with status := SnapshotFileStatus.reviewed } :: l2 } } := by
      simp only [completeReview, hg, snapshotFiles_some hs, hup, withFiles_some hs]
    have hs1 : (completeReview s p).1.snapshot = some { snap with files := l1 ++ { r with status := SnapshotFileStatus.reviewed } :: l2 } := by
      rw [h1]
    have hpp : (({ r with status := SnapshotFileStatus.reviewed } : File).path == p) = true := by
      simp [hrp]
    have hg1 : getSnapshotFile (completeReview s p).1 p =
        some { r with status := SnapshotFileStatus.reviewed } := by
      rw [h1]
      simp only [getSnapshotFile, snapshotFiles]
      rw [Option.map_some', Option.getD_some, List.find?_append, hl1none]
      rw [List.find?_cons, hpp]
      rfl
    have hsf1 : snapshotFiles (completeReview s p).1 =
        l1 ++ { r with status := SnapshotFileStatus.reviewed } :: l2 := by
      rw [h1]
      simp [snapshotFiles]
    rw [completeReview, hg1]
    rw [hsf1, updateFirst_append_left _ _ hl1]
    have hone : updateFirst ({ r with status := SnapshotFileStatus.reviewed } :: l2) p
        (fun f => { f with status := SnapshotFileStatus.reviewed }) =
        { r with status := SnapshotFileStatus.reviewed } :: l2 := by
      simp [updateFirst, hpp]
    rw [hone]
    exact withFiles_self hs1

/-- Witness for C4 on `sAB`, both for a tracked path and for one that gets
implicitly created by the first review. -/
theorem C4_review_idempotent_witness :
    sAB.snapshot.isSome = true ∧
    (completeReview (completeReview sAB "a.md").1 "a.md").1 =
      (completeReview sAB "a.md").1 ∧
    (completeReview (completeReview sAB "c.md").1 "c.md").1 =
      (completeReview sAB "c.md").1 :=
  ⟨by decide, C4_review_idempotent sAB "a.md" (by decide),
   C4_review_idempotent sAB "c.md" (by decide)⟩

end VaultReview

namespace VaultReview

/-- Claim C2. Rename reconciliation on a duplicate-free snapshot, for a
genuine rename (`oldPath ≠ newPath`): if a record exists at `oldPath` it is
rewritten in place to `newPath` with its status unchanged (the record count
is preserved and a record with the new path and the old status is present)
and no record with path `oldPath` remains; if no record exists at `oldPath`
the ledger is unchanged. -/
theorem C2_rename_moves_record_preserving_status (s : VaultReviewSettings)
    (snap : Snapshot) (oldPath newPath : String)
    (hs : s.snapshot = some snap)
    (hnd : (paths snap.files).Nodup)
    (hne : oldPath ≠ newPath) :
    (getSnapshotFile s oldPath = none → handleFileRename s false newPath oldPath = s) ∧
    (∀ r, getSnapshotFile s oldPath = some r →
      ∃ snap', (handleFileRename s false newPath oldPath).snapshot = some snap' ∧
        (handleFileRename s false newPath oldPath).settings = s.settings ∧
        snap'.files.length = snap.files.length ∧
        toFile newPath r.status ∈ snap'.files ∧
        (∀ x ∈ snap'.files, x.path ≠ oldPath)) := by
  constructor
  · intro h
    simp [handleFileRename, h]
  · intro r hr
    have hfind : snap.files.find? (fun f => f.path == oldPath) = some r := by
      rw [getSnapshotFile, snapshotFiles_some hs] at hr
      exact hr
    obtain ⟨l1, l2, hdec, hl1, hrp, hup⟩ :=
      updateFirst_decomp (fun f => { f with path := newPath }) hfind
    have hgr : ({ r with path := newPath } : File) = toFile newPath r.status := rfl
    have hren : handleFileRename s false newPath oldPath = { s with snapshot := some { snap with files := l1 ++ toFile newPath r.status :: l2 } } := by
      have hstep : handleFileRename s false newPath oldPath =
          withFiles s (updateFirst (snapshotFiles s) oldPath
            (fun f => { f with path := newPath })) := by
        simp [handleFileRename, hr]
      rw [hstep, snapshotFiles_some hs, hup, hgr, withFiles_some hs]
    have hl2 : ∀ x ∈ l2, x.path ≠ oldPath := by
      have hnd2 : (paths (l1 ++ r :: l2)).Nodup := by
        rw [← hdec]
        exact hnd
      rw [paths, List.map_append, List.map_cons] at hnd2
      have hcons := List.Nodup.of_append_right hnd2
      rw [List.nodup_cons] at hcons
      intro x hx hxp
      apply hcons.1
      rw [hrp]
      exact hxp ▸ List.mem_map_of_mem File.path hx
    refine ⟨{ snap with files := l1 ++ toFile newPath r.status :: l2 }, by rw [hren], by rw [hren], by simp [hdec], by simp, ?_⟩
    intro x hx
    rcases List.mem_append.mp hx with hx1 | hx2
    · exact hl1 x hx1
    · rcases List.mem_cons.mp hx2 with rfl | hx3
      · simpa [toFile] using hne.symm
      · exact hl2 x hx3

/-- Witness for C2 on `sAB`: renaming `b.md` to the unoccupied `c.md` moves
the `reviewed` record to `c.md` and leaves nothing at `b.md`. -/
theorem C2_rename_moves_record_preserving_status_witness :
    getSnapshotFile sAB "b.md" = some (toFile "b.md" SnapshotFileStatus.reviewed) ∧
    (∃ snap', (handleFileRename sAB false "c.md" "b.md").snapshot = some snap' ∧
      (handleFileRename sAB false "c.md" "b.md").settings = sAB.settings ∧
      snap'.files.length = 2 ∧
      toFile "c.md" SnapshotFileStatus.reviewed ∈ snap'.files ∧
      (∀ x ∈ snap'.files, x.path ≠ "b.md")) :=
  ⟨by decide,
   (C2_rename_moves_record_preserving_status sAB
     { files := [toFile "a.md" SnapshotFileStatus.to_review,
                 toFile "b.md" SnapshotFileStatus.reviewed], createdAt := 0 }
     "b.md" "c.md" rfl (by decide) (by decide)).2
     (toFile "b.md" SnapshotFileStatus.reviewed) (by decide)⟩

/-- Claim C5. `addNewFiles` appends a `to_review` record for exactly those
input paths with no existing record: the old record list is preserved as-is
(every existing record untouched, any status), every appended record is
`to_review` for an input path that had no record, every untracked input
path gets appended, and a second application with the same input set leaves
the ledger unchanged. -/
theorem C5_addNewFiles_additive_and_idempotent (s : VaultReviewSettings)
    (snap : Snapshot) (S : List String)
    (hs : s.snapshot = some snap) :
    (∃ news, (addNewFiles s S).snapshot = some { snap with files := snap.files ++ news } ∧
      (addNewFiles s S).settings = s.settings ∧
      (∀ r ∈ news, r.status = SnapshotFileStatus.to_review ∧ r.path ∈ S ∧
        getSnapshotFile s r.path = none) ∧
      (∀ p ∈ S, getSnapshotFile s p = none →
        toFile p SnapshotFileStatus.to_review ∈ news)) ∧
    addNewFiles (addNewFiles s S) S = addNewFiles s S := by
  have hA : addNewFiles s S = { s with snapshot := some { snap with files := snap.files ++ (S.filter (fun p => !snap.files.any (fun f => f.path == p))).map (fun p => toFile p SnapshotFileStatus.to_review) } } := by
    rw [addNewFiles_eq, snapshotFiles_some hs, withFiles_some hs]
  constructor
  · refine ⟨(S.filter (fun p => !snap.files.any (fun f => f.path == p))).map (fun p => toFile p SnapshotFileStatus.to_review), by rw [hA], by rw [hA], ?_, ?_⟩
    · intro r hr
      obtain ⟨q, hq, rfl⟩ := List.mem_map.mp hr
      rw [List.mem_filter] at hq
      have hany : snap.files.any (fun f => f.path == q) = false := by
        have := hq.2
        simpa using this
      refine ⟨rfl, hq.1, ?_⟩
      rw [getSnapshotFile, snapshotFiles_some hs]
      exact List.find?_eq_none.mpr (List.any_eq_false.mp hany)
    · intro p hp hnone
      apply List.mem_map.mpr
      refine ⟨p, List.mem_filter.mpr ⟨hp, ?_⟩, rfl⟩
      rw [getSnapshotFile, snapshotFiles_some hs] at hnone
      have : snap.files.any (fun f => f.path == p) = false :=
        List.any_eq_false.mpr (List.find?_eq_none.mp hnone)
      simp [this]
  · have hs1 : (addNewFiles s S).snapshot = some { snap with files := snap.files ++ (S.filter (fun p => !snap.files.any (fun f => f.path == p))).map (fun p => toFile p SnapshotFileStatus.to_review) } := by
      rw [hA]
    have hsf1 : snapshotFiles (addNewFiles s S) = snap.files ++ (S.filter (fun p => !snap.files.any (fun f => f.path == p))).map (fun p => toFile p SnapshotFileStatus.to_review) := by
      rw [hA]
      simp [snapshotFiles]
    have hfilter : S.filter (fun p => !(snapshotFiles (addNewFiles s S)).any (fun f => f.path == p)) = [] := by
      rw [List.filter_eq_nil_iff]
      intro p hp
      rw [hsf1, List.any_append]
      cases hany : snap.files.any (fun f => f.path == p) with
      | true => simp
      | false =>
        have hmem : toFile p SnapshotFileStatus.to_review ∈ (S.filter (fun q => !snap.files.any (fun f => f.path == q))).map (fun q => toFile q SnapshotFileStatus.to_review) :=
          List.mem_map.mpr ⟨p, List.mem_filter.mpr ⟨hp, by simp [hany]⟩, rfl⟩
        have hany2 : ((S.filter (fun q => !snap.files.any (fun f => f.path == q))).map (fun q => toFile q SnapshotFileStatus.to_review)).any (fun f => f.path == p) = true :=
          List.any_eq_true.mpr ⟨_, hmem, by simp [toFile]⟩
        simp [hany2]
    rw [addNewFiles_eq (addNewFiles s S), hfilter]
    simp only [List.map_nil, List.append_nil]
    rw [hsf1]
    exact withFiles_self hs1

/-- Witness for C5 on `sAB` with input set `[a.md, c.md]`: the tracked
`a.md` is skipped, the untracked `c.md` is appended as `to_review`, and a
second application changes nothing. -/
theorem C5_addNewFiles_additive_and_idempotent_witness :
    (∃ news, (addNewFiles sAB ["a.md", "c.md"]).snapshot =
        some { files := [toFile "a.md" SnapshotFileStatus.to_review,
                         toFile "b.md" SnapshotFileStatus.reviewed] ++ news,
               createdAt := 0 } ∧
      (addNewFiles sAB ["a.md", "c.md"]).settings = sAB.settings ∧
      (∀ r ∈ news, r.status = SnapshotFileStatus.to_review ∧
        r.path ∈ ["a.md", "c.md"] ∧ getSnapshotFile sAB r.path = none) ∧
      (∀ p ∈ ["a.md", "c.md"], getSnapshotFile sAB p = none →
        toFile p SnapshotFileStatus.to_review ∈ news)) ∧
    addNewFiles (addNewFiles sAB ["a.md", "c.md"]) ["a.md", "c.md"] =
      addNewFiles sAB ["a.md", "c.md"] :=
  C5_addNewFiles_additive_and_idempotent sAB
    { files := [toFile "a.md" SnapshotFileStatus.to_review,
                toFile "b.md" SnapshotFileStatus.reviewed], createdAt := 0 }
    ["a.md", "c.md"] rfl

end VaultReview
